import Mathlib

deriving instance DecidableEq for Except

/-!
Verification of the anjana anonymization engine's t-closeness routine
(`anjana/anonymity/_t_closeness.py`) against its specification.

The dataframe, the generalization-hierarchy applier and the refinement loop
are embedded shallowly below.  The k-anonymity enforcer (`k_anonymity_inner`)
and the metric oracle (`pycanon.anonymity.t_closeness`) are external to the
file under study, so the embedding is parameterized over them: every theorem
quantifies over an arbitrary enforcer and an arbitrary pure oracle.
-/

namespace Anjana

/-- A pandas dataframe, embedded as an association list from column name to
the column's cells.  `pd.DataFrame()` is `DataFrame.empty`. -/
structure DataFrame where
  cols : List (String × List String)
deriving DecidableEq, Repr

/-- The empty dataframe `pd.DataFrame()`. -/
def DataFrame.empty : DataFrame := ⟨[]⟩

/-- First column named `c` in a column list (`[]` when absent). -/
def lookupCol : List (String × List String) → String → List String
  | [], _ => []
  | p :: ps, c => if p.1 = c then p.2 else lookupCol ps c

/-- Column access `df[c]` (first column named `c`; `[]` when absent). -/
def DataFrame.get (df : DataFrame) (c : String) : List String :=
  lookupCol df.cols c

/-- Replace the value of every column named `c`. -/
def replaceCol : List (String × List String) → String → List String →
    List (String × List String)
  | [], _, _ => []
  | p :: ps, c, v => (if p.1 = c then (c, v) else p) :: replaceCol ps c v

/-- Column assignment `df[c] = v`: replaces the columns named `c`, or
appends a new column when none exists (pandas set-or-add semantics). -/
def DataFrame.setCol (df : DataFrame) (c : String) (v : List String) : DataFrame :=
  if df.cols.any (fun p => decide (p.1 = c)) then ⟨replaceCol df.cols c v⟩
  else ⟨df.cols ++ [(c, v)]⟩

/-- Number of rows of the dataframe (length of its first column). -/
def DataFrame.nRows (df : DataFrame) : Nat :=
  match df.cols with
  | [] => 0
  | p :: _ => p.2.length

/-- The number of distinct values in column `c`, as `len(np.unique(df[c]))`. -/
def numDistinct (df : DataFrame) (c : String) : Nat :=
  (df.get c).dedup.length

/-- The index of the first maximal element of the list, as `np.argmax`
(0 on the empty list, as a total function). -/
def argmaxIdx : List Nat → Nat
  | [] => 0
  | x :: xs => if xs.all (fun y => decide (y ≤ x)) then 0 else argmaxIdx xs + 1

/-- A generalization hierarchy for one attribute: levels `0..maxLevel`,
`image lvl` mapping each value to its image at level `lvl`. -/
structure Hierarchy where
  maxLevel : Nat
  image : Nat → String → String

/-- Modelled from the spec: `utils.apply_hierarchy` is part of this
repository but absent from the sources under study; per spec section 4.1 it
maps each value of the column to its image at the requested level and fails
with a domain error (ValueError) when the level exceeds the hierarchy's
maximum defined level. -/
def apply_hierarchy (values : List String) (h : Hierarchy) (level : Nat) :
    Except Unit (List String) :=
  if level ≤ h.maxLevel then Except.ok (values.map (h.image level))
  else Except.error ()

/-- Observable events of one run of the refinement loop:
`select` records the dataframe and candidate set at the moment an attribute
is chosen, `gen` a successful one-level generalization (with the previous
level), `prune` the removal of an attribute after hierarchy exhaustion, and
`metric` a call to the external metric oracle with the quasi-identifier
list, the sensitive attribute and the value returned. -/
inductive Event where
  | select (df : DataFrame) (genSet : List String) (qi : String)
  | gen (qi : String) (oldLevel : Nat)
  | prune (qi : String)
  | metric (qiList : List String) (sensAtt : String) (value : ℚ)
deriving DecidableEq, Repr

/-- The type of the external metric oracle
`pycanon.anonymity.t_closeness(data, quasi_ident, [sens_att])`. -/
abbrev OracleFn := DataFrame → List String → String → ℚ

/-- The type of the k-anonymity enforcer `k_anonymity_inner(data, ident,
quasi_ident, k, supp_level, hierarchies)`, returning the k-anonymized data,
the number of suppressed records, and the generalization-level state. -/
abbrev KanonFn := DataFrame → List String → List String → Nat → ℚ →
  (String → Hierarchy) → DataFrame × Nat × (String → Nat)

/-- The parameters held fixed throughout the refinement loop. -/
structure LoopCtx where
  oracle : OracleFn
  quasi_ident : List String
  sens_att : String
  hierarchies : String → Hierarchy
  t : ℚ

/-- The mutable state of the refinement loop: the current dataframe
(`data_kanon`), the remaining candidate set (`quasi_ident_gen`), the
generalization levels (`gen_level`) and the last metric value (`t_real`). -/
structure LoopState where
  df : DataFrame
  genSet : List String
  genLevel : String → Nat
  tReal : ℚ

/-- Result of one pass through the loop body: `done` when a `return`
statement fires, `next` to continue with the new state. -/
inductive StepRes where
  | done (df : DataFrame) (tr : List Event)
  | next (s : LoopState) (tr : List Event)

/-- The attribute selection
`quasi_ident_gen[np.argmax([len(np.unique(data_kanon[qi])) for qi in quasi_ident_gen])]`. -/
def selectQI (df : DataFrame) (gs : List String) : String :=
  gs.getD (argmaxIdx (gs.map (fun q => numDistinct df q))) ""

/-- The level advance `gen_level[qi_gen] = gen_level[qi_gen] + 1`. -/
def bumpLevel (gl : String → Nat) (qi : String) : String → Nat :=
  fun x => if x = qi then gl qi + 1 else gl x

/-- One iteration of the `while t_real > t` loop of `t_closeness`:
exit when the metric satisfies the target; return the empty dataframe when
the candidate set is empty; otherwise select the remaining candidate with
the most distinct values (first maximal index, as `np.argmax`), try to
generalize it one level further — on success replace the column and advance
the level, on ValueError remove the attribute from the candidate set — and
in either case recompute the metric (the recomputation sits outside the
`try`/`except` in the source) and return the dataframe if it now satisfies
the target. -/
def tStep (ctx : LoopCtx) (s : LoopState) : StepRes :=
  if s.tReal ≤ ctx.t then .done s.df []
  else if s.genSet = [] then .done DataFrame.empty []
  else
    let qi := selectQI s.df s.genSet
    match apply_hierarchy (s.df.get qi) (ctx.hierarchies qi) (s.genLevel qi + 1) with
    | Except.ok newcol =>
        let df2 := s.df.setCol qi newcol
        let v := ctx.oracle df2 ctx.quasi_ident ctx.sens_att
        .next ⟨df2, s.genSet, bumpLevel s.genLevel qi, v⟩
          [.select s.df s.genSet qi, .gen qi (s.genLevel qi),
           .metric ctx.quasi_ident ctx.sens_att v]
    | Except.error _ =>
        let v := ctx.oracle s.df ctx.quasi_ident ctx.sens_att
        .next ⟨s.df, s.genSet.erase qi, s.genLevel, v⟩
          [.select s.df s.genSet qi, .prune qi,
           .metric ctx.quasi_ident ctx.sens_att v]

/-- The refinement loop, fuel-indexed (`none` = fuel exhausted; theorem
`tLoop_isSome_of_measure_lt` below shows the fuel used by `t_closenessRun`
always suffices).  Returns the final dataframe, the event trace and the
final generalization-level state. -/
def tLoop (ctx : LoopCtx) : Nat → LoopState →
    Option (DataFrame × List Event × (String → Nat))
  | 0, _ => none
  | fuel + 1, s =>
    match tStep ctx s with
    | .done df tr => some (df, tr, s.genLevel)
    | .next s2 tr =>
      match tLoop ctx fuel s2 with
      | none => none
      | some (df, tr2, gl) => some (df, tr ++ tr2, gl)

/-- Termination measure of the loop: the candidate set's length plus, for
each remaining candidate, the generalization room left in its hierarchy. -/
def loopMeasure (ctx : LoopCtx) (s : LoopState) : Nat :=
  s.genSet.length +
    (s.genSet.map (fun q => (ctx.hierarchies q).maxLevel + 1 - s.genLevel q)).sum

/-- The full `t_closeness(data, ident, quasi_ident, sens_att, k, t,
supp_level, hierarchies)` routine, instrumented: validates `t ∈ [0,1]`
(raising ValueError otherwise), runs the k-anonymity enforcer, computes the
metric, returns the k-anonymized data at once when it already satisfies the
target, and otherwise runs the refinement loop.  Besides the resulting
dataframe it returns the loop's event trace and a snapshot of the final
generalization levels of the quasi-identifiers. -/
def t_closenessRun (kanon : KanonFn) (oracle : OracleFn) (data : DataFrame)
    (ident quasi_ident : List String) (sens_att : String) (k : Nat)
    (t supp_level : ℚ) (hierarchies : String → Hierarchy) :
    Except String (DataFrame × List Event × List (String × Nat)) :=
  if t < 0 ∨ t > 1 then
    Except.error ("Invalid value of t for t-closeness, t=" ++ toString t)
  else
    let r := kanon data ident quasi_ident k supp_level hierarchies
    let data_kanon := r.1
    let gen_level := r.2.2
    let t_real := oracle data_kanon quasi_ident sens_att
    if t_real ≤ t then
      Except.ok (data_kanon, [], quasi_ident.map (fun q => (q, gen_level q)))
    else
      let ctx : LoopCtx := ⟨oracle, quasi_ident, sens_att, hierarchies, t⟩
      let s0 : LoopState := ⟨data_kanon, quasi_ident, gen_level, t_real⟩
      match tLoop ctx (loopMeasure ctx s0 + 1) s0 with
      | some (df, tr, gl) =>
          Except.ok (df, tr, quasi_ident.map (fun q => (q, gl q)))
      | none => Except.ok (DataFrame.empty, [], [])

/-- The routine `t_closeness` as the source exposes it: just the resulting dataframe. -/
def t_closeness (kanon : KanonFn) (oracle : OracleFn) (data : DataFrame)
    (ident quasi_ident : List String) (sens_att : String) (k : Nat)
    (t supp_level : ℚ) (hierarchies : String → Hierarchy) :
    Except String DataFrame :=
  (t_closenessRun kanon oracle data ident quasi_ident sens_att k t supp_level
    hierarchies).map (fun out => out.1)

/-- The event trace of a `t_closeness` run. -/
def t_closenessTrace (kanon : KanonFn) (oracle : OracleFn) (data : DataFrame)
    (ident quasi_ident : List String) (sens_att : String) (k : Nat)
    (t supp_level : ℚ) (hierarchies : String → Hierarchy) :
    Except String (List Event) :=
  (t_closenessRun kanon oracle data ident quasi_ident sens_att k t supp_level
    hierarchies).map (fun out => out.2.1)

/-! ### Concrete fixtures, used by the witness theorems -/

/-- A two-row dataframe with a quasi-identifier column and a sensitive one. -/
def dfH : DataFrame := ⟨[("a", ["x", "y"]), ("s", ["u", "v"])]⟩

/-- An enforcer that passes the data through with all levels at 0. -/
def kanonId : KanonFn := fun d _ _ _ _ _ => (d, 0, fun _ => 0)

/-- A constant metric oracle. -/
def oracleConst (c : ℚ) : OracleFn := fun _ _ _ => c

/-- An oracle whose value drops to 0 once column `a` is fully starred. -/
def oracleGen : OracleFn := fun d _ _ => if d.get "a" = ["*", "*"] then 0 else 1

/-- A one-level hierarchy: only level 0 exists, so any generalization
attempt beyond it fails. -/
def hier0 : String → Hierarchy := fun _ => ⟨0, fun _ _ => "*"⟩

/-- A two-level hierarchy: level 1 sends every value to the star. -/
def hier1 : String → Hierarchy := fun _ => ⟨1, fun _ _ => "*"⟩

/-! ### List auxiliaries -/

theorem getD_mem {α : Type} (l : List α) (j : Nat) (d : α) (h : j < l.length) :
    l.getD j d ∈ l := by
  rw [List.getD_eq_getElem l d h]
  exact List.getElem_mem h

theorem getD_map {α β : Type} (f : α → β) (l : List α) (j : Nat) (d : α)
    (h : j < l.length) : (l.map f).getD j (f d) = f (l.getD j d) := by
  rw [List.getD_eq_getElem l d h,
    List.getD_eq_getElem (l.map f) (f d) (by simpa using h)]
  simp

theorem argmaxIdx_lt_length (l : List Nat) (h : l ≠ []) :
    argmaxIdx l < l.length := by
  induction l with
  | nil => exact absurd rfl h
  | cons x xs ih =>
    unfold argmaxIdx
    split
    · simp
    · rename_i hall
      have hxs : xs ≠ [] := by
        intro he
        subst he
        simp [List.all] at hall
      simpa [Nat.succ_lt_succ_iff] using ih hxs

theorem argmaxIdx_le (l : List Nat) (j : Nat) (h : j < l.length) :
    l.getD j 0 ≤ l.getD (argmaxIdx l) 0 := by
  induction l generalizing j with
  | nil => simp at h
  | cons x xs ih =>
    unfold argmaxIdx
    split
    · rename_i hall
      have hmax : ∀ y ∈ xs, y ≤ x := by
        intro y hy
        have := List.all_eq_true.mp hall y hy
        exact of_decide_eq_true this
      match j with
      | 0 => simp
      | j + 1 =>
        have hj : j < xs.length := by simpa [Nat.succ_lt_succ_iff] using h
        simpa using hmax (xs.getD j 0) (getD_mem xs j 0 hj)
    · rename_i hall
      have hex : ∃ y ∈ xs, x < y := by
        rcases List.all_eq_false.mp (Bool.not_eq_true _ ▸ hall) with ⟨y, hy, hny⟩
        exact ⟨y, hy, Nat.lt_of_not_le (fun hle => hny (by simpa using hle))⟩
      match j with
      | 0 =>
        rcases hex with ⟨y, hy, hxy⟩
        rcases List.mem_iff_getElem.mp hy with ⟨i, hi, rfl⟩
        have h1 : xs.getD i 0 ≤ xs.getD (argmaxIdx xs) 0 := ih i hi
        rw [List.getD_eq_getElem xs 0 hi] at h1
        simpa using Nat.le_of_lt (Nat.lt_of_lt_of_le hxy h1)
      | j + 1 =>
        have hj : j < xs.length := by simpa [Nat.succ_lt_succ_iff] using h
        simpa using ih j hj

theorem argmaxIdx_first (l : List Nat) (j : Nat) (h : j < argmaxIdx l) :
    l.getD j 0 < l.getD (argmaxIdx l) 0 := by
  induction l generalizing j with
  | nil => simp [argmaxIdx] at h
  | cons x xs ih =>
    unfold argmaxIdx at h ⊢
    split at h
    · omega
    · rename_i hall
      have hex : ∃ y ∈ xs, x < y := by
        rcases List.all_eq_false.mp (Bool.not_eq_true _ ▸ hall) with ⟨y, hy, hny⟩
        exact ⟨y, hy, Nat.lt_of_not_le (fun hle => hny (by simpa using hle))⟩
      simp only [if_neg hall]
      match j with
      | 0 =>
        rcases hex with ⟨y, hy, hxy⟩
        rcases List.mem_iff_getElem.mp hy with ⟨i, hi, rfl⟩
        have h1 : xs.getD i 0 ≤ xs.getD (argmaxIdx xs) 0 := argmaxIdx_le xs i hi
        rw [List.getD_eq_getElem xs 0 hi] at h1
        simpa using Nat.lt_of_lt_of_le hxy h1
      | j + 1 =>
        have hj : j < argmaxIdx xs := by omega
        simpa using ih j hj

theorem sum_map_le {α : Type} (l : List α) (f g : α → Nat)
    (hle : ∀ x ∈ l, g x ≤ f x) : (l.map g).sum ≤ (l.map f).sum := by
  induction l with
  | nil => simp
  | cons x xs ih =>
    simp only [List.map_cons, List.sum_cons]
    exact Nat.add_le_add (hle x (by simp)) (ih (fun y hy => hle y (by simp [hy])))

theorem sum_map_lt {α : Type} (l : List α) (f g : α → Nat) (a : α) (ha : a ∈ l)
    (hlt : g a < f a) (hle : ∀ x ∈ l, g x ≤ f x) :
    (l.map g).sum < (l.map f).sum := by
  induction l with
  | nil => simp at ha
  | cons x xs ih =>
    simp only [List.map_cons, List.sum_cons]
    rcases List.mem_cons.mp ha with rfl | hmem
    · exact Nat.add_lt_add_of_lt_of_le hlt
        (sum_map_le xs f g (fun y hy => hle y (by simp [hy])))
    · exact Nat.add_lt_add_of_le_of_lt (hle x (by simp))
        (ih hmem (fun y hy => hle y (by simp [hy])))

theorem sum_map_erase_le (l : List String) (a : String) (f : String → Nat) :
    ((l.erase a).map f).sum ≤ (l.map f).sum :=
  ((List.erase_sublist a l).map f).sum_le_sum (fun _ _ => Nat.zero_le _)

/-! ### Properties of the attribute selection -/

theorem selectQI_mem (df : DataFrame) (gs : List String) (h : gs ≠ []) :
    selectQI df gs ∈ gs := by
  unfold selectQI
  have hlen : argmaxIdx (gs.map (fun q => numDistinct df q)) < gs.length := by
    have := argmaxIdx_lt_length (gs.map (fun q => numDistinct df q)) (by simpa using h)
    simpa using this
  exact getD_mem gs _ "" hlen

theorem counts_getD (df : DataFrame) (gs : List String) (i : Nat)
    (hi : i < gs.length) :
    (gs.map (fun q => numDistinct df q)).getD i 0 = numDistinct df (gs.getD i "") := by
  rw [List.getD_eq_getElem (gs.map (fun q => numDistinct df q)) 0 (by simpa using hi),
    List.getD_eq_getElem gs "" hi]
  simp

theorem selectQI_max (df : DataFrame) (gs : List String) (h : gs ≠ [])
    (q : String) (hq : q ∈ gs) :
    numDistinct df q ≤ numDistinct df (selectQI df gs) := by
  rcases List.mem_iff_getElem.mp hq with ⟨j, hj, hgsj⟩
  have hlen : argmaxIdx (gs.map (fun q => numDistinct df q)) < gs.length := by
    have := argmaxIdx_lt_length (gs.map (fun q => numDistinct df q)) (by simpa using h)
    simpa using this
  have h1 := argmaxIdx_le (gs.map (fun q => numDistinct df q)) j (by simpa using hj)
  rw [counts_getD df gs j hj, counts_getD df gs _ hlen] at h1
  rw [List.getD_eq_getElem gs "" hj, hgsj] at h1
  exact h1

theorem selectQI_first (df : DataFrame) (gs : List String) (h : gs ≠ []) :
    ∃ i : Nat, i < gs.length ∧ gs.getD i "" = selectQI df gs ∧
      ∀ j : Nat, j < i → numDistinct df (gs.getD j "") < numDistinct df (selectQI df gs) := by
  have hlen : argmaxIdx (gs.map (fun q => numDistinct df q)) < gs.length := by
    have := argmaxIdx_lt_length (gs.map (fun q => numDistinct df q)) (by simpa using h)
    simpa using this
  refine ⟨argmaxIdx (gs.map (fun q => numDistinct df q)), hlen, rfl, ?_⟩
  intro j hj
  have hjlen : j < gs.length := Nat.lt_trans hj hlen
  have h1 := argmaxIdx_first (gs.map (fun q => numDistinct df q)) j hj
  rw [counts_getD df gs j hjlen, counts_getD df gs _ hlen] at h1
  exact h1

/-! ### Branch equations for one loop iteration -/

theorem apply_hierarchy_ok (values : List String) (h : Hierarchy) (level : Nat)
    (newcol : List String) (hok : apply_hierarchy values h level = Except.ok newcol) :
    level ≤ h.maxLevel ∧ newcol = values.map (h.image level) := by
  unfold apply_hierarchy at hok
  split at hok
  · exact ⟨by assumption, by cases hok; rfl⟩
  · cases hok

theorem tStep_exit (ctx : LoopCtx) (s : LoopState) (h : s.tReal ≤ ctx.t) :
    tStep ctx s = .done s.df [] := by
  unfold tStep
  rw [if_pos h]

theorem tStep_infeasible (ctx : LoopCtx) (s : LoopState) (h1 : ¬ s.tReal ≤ ctx.t)
    (h2 : s.genSet = []) : tStep ctx s = .done DataFrame.empty [] := by
  unfold tStep
  rw [if_neg h1, if_pos h2]

/-- Successor state of a loop iteration that generalized the selected
attribute. -/
def genSucc (ctx : LoopCtx) (s : LoopState) (newcol : List String) : LoopState :=
  ⟨s.df.setCol (selectQI s.df s.genSet) newcol, s.genSet,
    bumpLevel s.genLevel (selectQI s.df s.genSet),
    ctx.oracle (s.df.setCol (selectQI s.df s.genSet) newcol)
      ctx.quasi_ident ctx.sens_att⟩

/-- Successor state of a loop iteration whose generalization attempt hit
hierarchy exhaustion. -/
def pruneSucc (ctx : LoopCtx) (s : LoopState) : LoopState :=
  ⟨s.df, s.genSet.erase (selectQI s.df s.genSet), s.genLevel,
    ctx.oracle s.df ctx.quasi_ident ctx.sens_att⟩

/-- Events of a loop iteration that generalized the selected attribute. -/
def genTrace (ctx : LoopCtx) (s : LoopState) (newcol : List String) : List Event :=
  [.select s.df s.genSet (selectQI s.df s.genSet),
   .gen (selectQI s.df s.genSet) (s.genLevel (selectQI s.df s.genSet)),
   .metric ctx.quasi_ident ctx.sens_att
     (ctx.oracle (s.df.setCol (selectQI s.df s.genSet) newcol)
       ctx.quasi_ident ctx.sens_att)]

/-- Events of a loop iteration whose generalization attempt hit hierarchy
exhaustion. -/
def pruneTrace (ctx : LoopCtx) (s : LoopState) : List Event :=
  [.select s.df s.genSet (selectQI s.df s.genSet),
   .prune (selectQI s.df s.genSet),
   .metric ctx.quasi_ident ctx.sens_att
     (ctx.oracle s.df ctx.quasi_ident ctx.sens_att)]

theorem tStep_gen (ctx : LoopCtx) (s : LoopState) (h1 : ¬ s.tReal ≤ ctx.t)
    (h2 : ¬ s.genSet = []) (newcol : List String)
    (h3 : apply_hierarchy (s.df.get (selectQI s.df s.genSet))
      (ctx.hierarchies (selectQI s.df s.genSet))
      (s.genLevel (selectQI s.df s.genSet) + 1) = Except.ok newcol) :
    tStep ctx s = .next (genSucc ctx s newcol) (genTrace ctx s newcol) := by
  unfold tStep
  rw [if_neg h1, if_neg h2]
  simp only [h3]
  rfl

theorem tStep_prune (ctx : LoopCtx) (s : LoopState) (h1 : ¬ s.tReal ≤ ctx.t)
    (h2 : ¬ s.genSet = []) (e : Unit)
    (h3 : apply_hierarchy (s.df.get (selectQI s.df s.genSet))
      (ctx.hierarchies (selectQI s.df s.genSet))
      (s.genLevel (selectQI s.df s.genSet) + 1) = Except.error e) :
    tStep ctx s = .next (pruneSucc ctx s) (pruneTrace ctx s) := by
  unfold tStep
  rw [if_neg h1, if_neg h2]
  simp only [h3]
  rfl

/-! ### Termination of the loop -/

theorem loopMeasure_bump_lt (ctx : LoopCtx) (s : LoopState) (df2 : DataFrame)
    (v : ℚ) (qi : String) (hqi : qi ∈ s.genSet)
    (hlvl : s.genLevel qi + 1 ≤ (ctx.hierarchies qi).maxLevel) :
    loopMeasure ctx ⟨df2, s.genSet, bumpLevel s.genLevel qi, v⟩ <
      loopMeasure ctx s := by
  unfold loopMeasure
  dsimp only
  have hsum : (s.genSet.map (fun q =>
      (ctx.hierarchies q).maxLevel + 1 - bumpLevel s.genLevel qi q)).sum <
      (s.genSet.map (fun q => (ctx.hierarchies q).maxLevel + 1 - s.genLevel q)).sum := by
    have hself : bumpLevel s.genLevel qi qi = s.genLevel qi + 1 := by
      simp [bumpLevel]
    refine sum_map_lt s.genSet _ _ qi hqi ?_ ?_
    · rw [hself]
      omega
    · intro x _
      by_cases hx : x = qi
      · subst hx
        rw [hself]
        omega
      · simp only [bumpLevel, if_neg hx]
        exact Nat.le_refl _
  omega

theorem loopMeasure_erase_lt (ctx : LoopCtx) (s : LoopState) (v : ℚ)
    (qi : String) (hqi : qi ∈ s.genSet) :
    loopMeasure ctx ⟨s.df, s.genSet.erase qi, s.genLevel, v⟩ <
      loopMeasure ctx s := by
  unfold loopMeasure
  dsimp only
  have hlen : (s.genSet.erase qi).length = s.genSet.length - 1 :=
    List.length_erase_of_mem hqi
  have hpos : 0 < s.genSet.length := List.length_pos_of_mem hqi
  have hsum : ((s.genSet.erase qi).map (fun q =>
      (ctx.hierarchies q).maxLevel + 1 - s.genLevel q)).sum ≤
      (s.genSet.map (fun q => (ctx.hierarchies q).maxLevel + 1 - s.genLevel q)).sum :=
    sum_map_erase_le s.genSet qi _
  omega

theorem tLoop_isSome_of_measure_lt (ctx : LoopCtx) :
    ∀ (fuel : Nat) (s : LoopState), loopMeasure ctx s < fuel →
      (tLoop ctx fuel s).isSome = true := by
  intro fuel
  induction fuel with
  | zero => intro s h; omega
  | succ n ih =>
    intro s h
    by_cases h1 : s.tReal ≤ ctx.t
    · simp [tLoop, tStep_exit ctx s h1]
    · by_cases h2 : s.genSet = []
      · simp [tLoop, tStep_infeasible ctx s h1 h2]
      · rcases hap : apply_hierarchy (s.df.get (selectQI s.df s.genSet))
            (ctx.hierarchies (selectQI s.df s.genSet))
            (s.genLevel (selectQI s.df s.genSet) + 1) with e | newcol
        · have hqi : selectQI s.df s.genSet ∈ s.genSet := selectQI_mem s.df s.genSet h2
          have hm : loopMeasure ctx (pruneSucc ctx s) < loopMeasure ctx s :=
            loopMeasure_erase_lt ctx s
              (ctx.oracle s.df ctx.quasi_ident ctx.sens_att) (selectQI s.df s.genSet) hqi
          have hs2 := ih (pruneSucc ctx s) (by omega)
          rcases ho : tLoop ctx n (pruneSucc ctx s) with _ | out
          · rw [ho] at hs2; simp at hs2
          · simp [tLoop, tStep_prune ctx s h1 h2 e hap, ho]
        · have hqi : selectQI s.df s.genSet ∈ s.genSet := selectQI_mem s.df s.genSet h2
          have hlvl := (apply_hierarchy_ok _ _ _ _ hap).1
          have hm : loopMeasure ctx (genSucc ctx s newcol) < loopMeasure ctx s :=
            loopMeasure_bump_lt ctx s
              (s.df.setCol (selectQI s.df s.genSet) newcol)
              (ctx.oracle (s.df.setCol (selectQI s.df s.genSet) newcol)
                ctx.quasi_ident ctx.sens_att) (selectQI s.df s.genSet) hqi hlvl
          have hs2 := ih (genSucc ctx s newcol) (by omega)
          rcases ho : tLoop ctx n (genSucc ctx s newcol) with _ | out
          · rw [ho] at hs2; simp at hs2
          · simp [tLoop, tStep_gen ctx s h1 h2 newcol hap, ho]

/-! ### Column update lemmas -/

theorem lookupCol_replaceCol_ne (cols : List (String × List String))
    (c qi : String) (v : List String) (hne : c ≠ qi) :
    lookupCol (replaceCol cols qi v) c = lookupCol cols c := by
  induction cols with
  | nil => rfl
  | cons p ps ih =>
    by_cases hp : p.1 = qi
    · have hqc : ¬ qi = c := fun h => hne h.symm
      have hpc : ¬ p.1 = c := by rw [hp]; exact hqc
      simp only [replaceCol, if_pos hp, lookupCol, if_neg hqc, if_neg hpc]
      exact ih
    · simp only [replaceCol, if_neg hp, lookupCol]
      by_cases hpc : p.1 = c
      · simp only [if_pos hpc]
      · simp only [if_neg hpc]
        exact ih

theorem lookupCol_replaceCol_self (cols : List (String × List String))
    (qi : String) (v : List String)
    (hany : cols.any (fun p => decide (p.1 = qi)) = true) :
    lookupCol (replaceCol cols qi v) qi = v := by
  induction cols with
  | nil => simp at hany
  | cons p ps ih =>
    by_cases hp : p.1 = qi
    · simp [replaceCol, if_pos hp, lookupCol]
    · simp only [replaceCol, if_neg hp, lookupCol, if_neg hp]
      refine ih ?_
      simpa [hp] using hany

theorem lookupCol_append_single_ne (cols : List (String × List String))
    (c qi : String) (v : List String) (hne : c ≠ qi) :
    lookupCol (cols ++ [(qi, v)]) c = lookupCol cols c := by
  induction cols with
  | nil =>
    have hqc : ¬ qi = c := fun h => hne h.symm
    simp [lookupCol, hqc]
  | cons p ps ih =>
    simp only [List.cons_append, lookupCol]
    by_cases hpc : p.1 = c
    · simp only [if_pos hpc]
    · simp only [if_neg hpc]
      exact ih

theorem lookupCol_append_single_self (cols : List (String × List String))
    (qi : String) (v : List String)
    (hany : cols.any (fun p => decide (p.1 = qi)) = false) :
    lookupCol (cols ++ [(qi, v)]) qi = v := by
  induction cols with
  | nil => simp [lookupCol]
  | cons p ps ih =>
    simp only [List.any_cons, Bool.or_eq_false_iff] at hany
    simp only [List.cons_append, lookupCol, if_neg (by simpa using hany.1)]
    exact ih hany.2

theorem lookupCol_of_not_any (cols : List (String × List String)) (c : String)
    (h : cols.any (fun p => decide (p.1 = c)) = false) :
    lookupCol cols c = [] := by
  induction cols with
  | nil => rfl
  | cons p ps ih =>
    simp only [List.any_cons, Bool.or_eq_false_iff] at h
    simp only [lookupCol, if_neg (by simpa using h.1)]
    exact ih h.2

theorem get_setCol_ne (df : DataFrame) (qi c : String) (v : List String)
    (hne : c ≠ qi) : (df.setCol qi v).get c = df.get c := by
  unfold DataFrame.setCol DataFrame.get
  split
  · exact lookupCol_replaceCol_ne df.cols c qi v hne
  · exact lookupCol_append_single_ne df.cols c qi v hne

theorem get_setCol_self (df : DataFrame) (qi : String) (v : List String) :
    (df.setCol qi v).get qi = v := by
  unfold DataFrame.setCol DataFrame.get
  split
  · rename_i hany
    exact lookupCol_replaceCol_self df.cols qi v hany
  · rename_i hany
    exact lookupCol_append_single_self df.cols qi v
      (by simp only [Bool.not_eq_true] at hany; exact hany)

theorem length_get_setCol (df : DataFrame) (qi : String) (v : List String)
    (hlen : v.length = (df.get qi).length) (c : String) :
    ((df.setCol qi v).get c).length = (df.get c).length := by
  by_cases hc : c = qi
  · subst hc
    rw [get_setCol_self df c v, hlen]
  · rw [get_setCol_ne df qi c v hc]

theorem nRows_setCol (df : DataFrame) (qi : String) (v : List String)
    (hlen : v.length = (df.get qi).length) :
    (df.setCol qi v).nRows = df.nRows := by
  rcases df with ⟨cols⟩
  unfold DataFrame.setCol
  rcases cols with _ | ⟨p, ps⟩
  · have h0 : DataFrame.get ⟨[]⟩ qi = [] := rfl
    rw [h0] at hlen
    rw [if_neg (by simp)]
    simpa [DataFrame.nRows] using hlen
  · by_cases hp : p.1 = qi
    · rw [if_pos (by simp [hp])]
      have hget : DataFrame.get ⟨p :: ps⟩ qi = p.2 := by
        simp [DataFrame.get, lookupCol, if_pos hp]
      rw [hget] at hlen
      simp only [DataFrame.nRows, replaceCol, if_pos hp]
      simpa using hlen
    · split
      · simp only [DataFrame.nRows, replaceCol, if_neg hp]
      · simp only [DataFrame.nRows, List.cons_append]

/-! ### Inversion of one loop unfolding -/

theorem tLoop_succ_inv (ctx : LoopCtx) (n : Nat) (s : LoopState) (df : DataFrame)
    (tr : List Event) (gl : String → Nat)
    (h : tLoop ctx (n + 1) s = some (df, tr, gl)) :
    (s.tReal ≤ ctx.t ∧ df = s.df ∧ tr = [] ∧ gl = s.genLevel) ∨
    (¬ s.tReal ≤ ctx.t ∧ s.genSet = [] ∧ df = DataFrame.empty ∧ tr = [] ∧
      gl = s.genLevel) ∨
    (∃ newcol tr2, ¬ s.tReal ≤ ctx.t ∧ s.genSet ≠ [] ∧
      apply_hierarchy (s.df.get (selectQI s.df s.genSet))
        (ctx.hierarchies (selectQI s.df s.genSet))
        (s.genLevel (selectQI s.df s.genSet) + 1) = Except.ok newcol ∧
      tLoop ctx n (genSucc ctx s newcol) = some (df, tr2, gl) ∧
      tr = genTrace ctx s newcol ++ tr2) ∨
    (∃ e tr2, ¬ s.tReal ≤ ctx.t ∧ s.genSet ≠ [] ∧
      apply_hierarchy (s.df.get (selectQI s.df s.genSet))
        (ctx.hierarchies (selectQI s.df s.genSet))
        (s.genLevel (selectQI s.df s.genSet) + 1) = Except.error e ∧
      tLoop ctx n (pruneSucc ctx s) = some (df, tr2, gl) ∧
      tr = pruneTrace ctx s ++ tr2) := by
  by_cases h1 : s.tReal ≤ ctx.t
  · have he : tLoop ctx (n + 1) s = some (s.df, [], s.genLevel) := by
      simp [tLoop, tStep_exit ctx s h1]
    rw [he] at h
    have hinj := Option.some.inj h
    exact Or.inl ⟨h1, (congrArg (fun x => x.1) hinj).symm,
      (congrArg (fun x => x.2.1) hinj).symm, (congrArg (fun x => x.2.2) hinj).symm⟩
  · by_cases h2 : s.genSet = []
    · have he : tLoop ctx (n + 1) s = some (DataFrame.empty, [], s.genLevel) := by
        simp [tLoop, tStep_infeasible ctx s h1 h2]
      rw [he] at h
      have hinj := Option.some.inj h
      exact Or.inr (Or.inl ⟨h1, h2, (congrArg (fun x => x.1) hinj).symm,
        (congrArg (fun x => x.2.1) hinj).symm, (congrArg (fun x => x.2.2) hinj).symm⟩)
    · rcases hap : apply_hierarchy (s.df.get (selectQI s.df s.genSet))
          (ctx.hierarchies (selectQI s.df s.genSet))
          (s.genLevel (selectQI s.df s.genSet) + 1) with e | newcol
      · refine Or.inr (Or.inr (Or.inr ?_))
        simp only [tLoop, tStep_prune ctx s h1 h2 e hap] at h
        rcases ho : tLoop ctx n (pruneSucc ctx s) with _ | ⟨df2, tr2, gl2⟩
        · rw [ho] at h; simp at h
        · rw [ho] at h
          have hinj := Option.some.inj h
          have hdf : df2 = df := congrArg (fun x => x.1) hinj
          have htr : pruneTrace ctx s ++ tr2 = tr := congrArg (fun x => x.2.1) hinj
          have hgl : gl2 = gl := congrArg (fun x => x.2.2) hinj
          exact ⟨e, tr2, h1, h2, rfl, by rw [hdf, hgl], htr.symm⟩
      · refine Or.inr (Or.inr (Or.inl ?_))
        simp only [tLoop, tStep_gen ctx s h1 h2 newcol hap] at h
        rcases ho : tLoop ctx n (genSucc ctx s newcol) with _ | ⟨df2, tr2, gl2⟩
        · rw [ho] at h; simp at h
        · rw [ho] at h
          have hinj := Option.some.inj h
          have hdf : df2 = df := congrArg (fun x => x.1) hinj
          have htr : genTrace ctx s newcol ++ tr2 = tr := congrArg (fun x => x.2.1) hinj
          have hgl : gl2 = gl := congrArg (fun x => x.2.2) hinj
          exact ⟨newcol, tr2, h1, h2, rfl, by rw [← hdf, ← hgl]; exact ho, htr.symm⟩

/-! ### Loop invariants -/

theorem tLoop_ok_metric (ctx : LoopCtx) : ∀ (fuel : Nat) (s : LoopState)
    (df : DataFrame) (tr : List Event) (gl : String → Nat),
    s.tReal = ctx.oracle s.df ctx.quasi_ident ctx.sens_att →
    tLoop ctx fuel s = some (df, tr, gl) →
    df = DataFrame.empty ∨ ctx.oracle df ctx.quasi_ident ctx.sens_att ≤ ctx.t := by
  intro fuel
  induction fuel with
  | zero => intro s df tr gl _ h; simp [tLoop] at h
  | succ n ih =>
    intro s df tr gl hinv h
    rcases tLoop_succ_inv ctx n s df tr gl h with
      ⟨hle, rfl, _, _⟩ | ⟨_, _, rfl, _, _⟩ |
      ⟨newcol, tr2, _, _, _, hrec, _⟩ | ⟨e, tr2, _, _, _, hrec, _⟩
    · exact Or.inr (by rw [← hinv]; exact hle)
    · exact Or.inl rfl
    · exact ih (genSucc ctx s newcol) df tr2 gl rfl hrec
    · exact ih (pruneSucc ctx s) df tr2 gl rfl hrec

theorem tLoop_frame (ctx : LoopCtx) : ∀ (fuel : Nat) (s : LoopState)
    (df : DataFrame) (tr : List Event) (gl : String → Nat),
    tLoop ctx fuel s = some (df, tr, gl) →
    df = DataFrame.empty ∨
      ((∀ c, c ∉ s.genSet → df.get c = s.df.get c) ∧
       (∀ c, (df.get c).length = (s.df.get c).length) ∧
       df.nRows = s.df.nRows) := by
  intro fuel
  induction fuel with
  | zero => intro s df tr gl h; simp [tLoop] at h
  | succ n ih =>
    intro s df tr gl h
    rcases tLoop_succ_inv ctx n s df tr gl h with
      ⟨_, rfl, _, _⟩ | ⟨_, _, rfl, _, _⟩ |
      ⟨newcol, tr2, _, h2, hap, hrec, _⟩ | ⟨e, tr2, _, h2, hap, hrec, _⟩
    · exact Or.inr ⟨fun c _ => rfl, fun c => rfl, rfl⟩
    · exact Or.inl rfl
    · rcases ih (genSucc ctx s newcol) df tr2 gl hrec with hempty | ⟨hcols, hlens, hrows⟩
      · exact Or.inl hempty
      · have hqi := selectQI_mem s.df s.genSet h2
        have hnlen : newcol.length = (s.df.get (selectQI s.df s.genSet)).length := by
          rw [(apply_hierarchy_ok _ _ _ _ hap).2]
          exact List.length_map _ _
        refine Or.inr ⟨?_, ?_, ?_⟩
        · intro c hc
          have hcne : c ≠ selectQI s.df s.genSet := fun hce => hc (hce ▸ hqi)
          rw [hcols c hc]
          exact get_setCol_ne s.df _ c newcol hcne
        · intro c
          rw [hlens c]
          exact length_get_setCol s.df _ newcol hnlen c
        · rw [hrows]
          exact nRows_setCol s.df _ newcol hnlen
    · rcases ih (pruneSucc ctx s) df tr2 gl hrec with hempty | ⟨hcols, hlens, hrows⟩
      · exact Or.inl hempty
      · refine Or.inr ⟨?_, hlens, hrows⟩
        intro c hc
        exact hcols c (fun hmem => hc (List.mem_of_mem_erase hmem))

theorem tLoop_select_spec (ctx : LoopCtx) : ∀ (fuel : Nat) (s : LoopState)
    (df : DataFrame) (tr : List Event) (gl : String → Nat),
    tLoop ctx fuel s = some (df, tr, gl) →
    ∀ d g qi, Event.select d g qi ∈ tr → qi = selectQI d g ∧ g ≠ [] := by
  intro fuel
  induction fuel with
  | zero => intro s df tr gl h; simp [tLoop] at h
  | succ n ih =>
    intro s df tr gl h
    rcases tLoop_succ_inv ctx n s df tr gl h with
      ⟨_, _, rfl, _⟩ | ⟨_, _, _, rfl, _⟩ |
      ⟨newcol, tr2, _, h2, _, hrec, rfl⟩ | ⟨e, tr2, _, h2, _, hrec, rfl⟩
    · intro d g qi hmem; simp at hmem
    · intro d g qi hmem; simp at hmem
    · intro d g qi hmem
      rcases List.mem_append.mp hmem with hblk | htl
      · simp only [genTrace, List.mem_cons, List.not_mem_nil, or_false] at hblk
        rcases hblk with hsel | hother | hother
        · obtain ⟨hd, hg, hqi⟩ := Event.select.inj hsel
          exact ⟨by rw [hqi, hd, hg], by rw [hg]; exact h2⟩
        · cases hother
        · cases hother
      · exact ih (genSucc ctx s newcol) df tr2 gl hrec d g qi htl
    · intro d g qi hmem
      rcases List.mem_append.mp hmem with hblk | htl
      · simp only [pruneTrace, List.mem_cons, List.not_mem_nil, or_false] at hblk
        rcases hblk with hsel | hother | hother
        · obtain ⟨hd, hg, hqi⟩ := Event.select.inj hsel
          exact ⟨by rw [hqi, hd, hg], by rw [hg]; exact h2⟩
        · cases hother
        · cases hother
      · exact ih (pruneSucc ctx s) df tr2 gl hrec d g qi htl

theorem tLoop_metric_args (ctx : LoopCtx) : ∀ (fuel : Nat) (s : LoopState)
    (df : DataFrame) (tr : List Event) (gl : String → Nat),
    tLoop ctx fuel s = some (df, tr, gl) →
    ∀ ql sv v, Event.metric ql sv v ∈ tr →
      ql = ctx.quasi_ident ∧ sv = ctx.sens_att := by
  intro fuel
  induction fuel with
  | zero => intro s df tr gl h; simp [tLoop] at h
  | succ n ih =>
    intro s df tr gl h
    rcases tLoop_succ_inv ctx n s df tr gl h with
      ⟨_, _, rfl, _⟩ | ⟨_, _, _, rfl, _⟩ |
      ⟨newcol, tr2, _, _, _, hrec, rfl⟩ | ⟨e, tr2, _, _, _, hrec, rfl⟩
    · intro ql sv v hmem; simp at hmem
    · intro ql sv v hmem; simp at hmem
    · intro ql sv v hmem
      rcases List.mem_append.mp hmem with hblk | htl
      · simp only [genTrace, List.mem_cons, List.not_mem_nil, or_false] at hblk
        rcases hblk with hother | hother | hmet
        · cases hother
        · cases hother
        · obtain ⟨hql, hsv, _⟩ := Event.metric.inj hmet
          exact ⟨hql, hsv⟩
      · exact ih (genSucc ctx s newcol) df tr2 gl hrec ql sv v htl
    · intro ql sv v hmem
      rcases List.mem_append.mp hmem with hblk | htl
      · simp only [pruneTrace, List.mem_cons, List.not_mem_nil, or_false] at hblk
        rcases hblk with hother | hother | hmet
        · cases hother
        · cases hother
        · obtain ⟨hql, hsv, _⟩ := Event.metric.inj hmet
          exact ⟨hql, hsv⟩
      · exact ih (pruneSucc ctx s) df tr2 gl hrec ql sv v htl

theorem tLoop_level_mono (ctx : LoopCtx) : ∀ (fuel : Nat) (s : LoopState)
    (df : DataFrame) (tr : List Event) (gl : String → Nat),
    tLoop ctx fuel s = some (df, tr, gl) →
    ∀ q, s.genLevel q ≤ gl q := by
  intro fuel
  induction fuel with
  | zero => intro s df tr gl h; simp [tLoop] at h
  | succ n ih =>
    intro s df tr gl h
    rcases tLoop_succ_inv ctx n s df tr gl h with
      ⟨_, _, _, rfl⟩ | ⟨_, _, _, _, rfl⟩ |
      ⟨newcol, tr2, _, _, _, hrec, _⟩ | ⟨e, tr2, _, _, _, hrec, _⟩
    · exact fun q => Nat.le_refl _
    · exact fun q => Nat.le_refl _
    · intro q
      have htail := ih (genSucc ctx s newcol) df tr2 gl hrec q
      have hstep : s.genLevel q ≤ bumpLevel s.genLevel (selectQI s.df s.genSet) q := by
        unfold bumpLevel
        by_cases hq : q = selectQI s.df s.genSet
        · subst hq
          rw [if_pos rfl]
          omega
        · rw [if_neg hq]
      exact Nat.le_trans hstep htail
    · exact fun q => ih (pruneSucc ctx s) df tr2 gl hrec q

theorem tStep_level_shape (ctx : LoopCtx) (s s2 : LoopState) (tr : List Event)
    (h : tStep ctx s = .next s2 tr) :
    ∃ qi, (∀ q, q ≠ qi → s2.genLevel q = s.genLevel q) ∧
      (s2.genLevel qi = s.genLevel qi ∨ s2.genLevel qi = s.genLevel qi + 1) := by
  by_cases h1 : s.tReal ≤ ctx.t
  · rw [tStep_exit ctx s h1] at h
    cases h
  · by_cases h2 : s.genSet = []
    · rw [tStep_infeasible ctx s h1 h2] at h
      cases h
    · rcases hap : apply_hierarchy (s.df.get (selectQI s.df s.genSet))
          (ctx.hierarchies (selectQI s.df s.genSet))
          (s.genLevel (selectQI s.df s.genSet) + 1) with e | newcol
      · rw [tStep_prune ctx s h1 h2 e hap] at h
        obtain ⟨hs2, _⟩ := StepRes.next.inj h
        refine ⟨selectQI s.df s.genSet, ?_, Or.inl ?_⟩
        · intro q _
          rw [← hs2]
          rfl
        · rw [← hs2]
          rfl
      · rw [tStep_gen ctx s h1 h2 newcol hap] at h
        obtain ⟨hs2, _⟩ := StepRes.next.inj h
        refine ⟨selectQI s.df s.genSet, ?_, Or.inr ?_⟩
        · intro q hq
          rw [← hs2]
          show bumpLevel s.genLevel (selectQI s.df s.genSet) q = s.genLevel q
          unfold bumpLevel
          rw [if_neg hq]
        · rw [← hs2]
          show bumpLevel s.genLevel (selectQI s.df s.genSet) _ = _
          unfold bumpLevel
          rw [if_pos rfl]

/-! ### Pruned attributes are never selected again -/

/-- Whether an event is a `select`. -/
def Event.isSelect : Event → Bool
  | .select _ _ _ => true
  | _ => false

/-- Whether an event is a `metric` (oracle call). -/
def Event.isMetric : Event → Bool
  | .metric _ _ _ => true
  | _ => false

theorem tLoop_no_select (ctx : LoopCtx) : ∀ (fuel : Nat) (s : LoopState)
    (df : DataFrame) (tr : List Event) (gl : String → Nat) (qi : String),
    tLoop ctx fuel s = some (df, tr, gl) → qi ∉ s.genSet →
    ∀ d g, Event.select d g qi ∉ tr := by
  intro fuel
  induction fuel with
  | zero => intro s df tr gl qi h; simp [tLoop] at h
  | succ n ih =>
    intro s df tr gl qi h hqi
    rcases tLoop_succ_inv ctx n s df tr gl h with
      ⟨_, _, rfl, _⟩ | ⟨_, _, _, rfl, _⟩ |
      ⟨newcol, tr2, _, h2, _, hrec, rfl⟩ | ⟨e, tr2, _, h2, _, hrec, rfl⟩
    · intro d g; simp
    · intro d g; simp
    · intro d g hmem
      rcases List.mem_append.mp hmem with hblk | htl
      · simp only [genTrace, List.mem_cons, List.not_mem_nil, or_false] at hblk
        rcases hblk with hsel | hother | hother
        · obtain ⟨_, _, hq⟩ := Event.select.inj hsel
          exact hqi (hq ▸ selectQI_mem s.df s.genSet h2)
        · cases hother
        · cases hother
      · exact ih (genSucc ctx s newcol) df tr2 gl qi hrec hqi d g htl
    · intro d g hmem
      rcases List.mem_append.mp hmem with hblk | htl
      · simp only [pruneTrace, List.mem_cons, List.not_mem_nil, or_false] at hblk
        rcases hblk with hsel | hother | hother
        · obtain ⟨_, _, hq⟩ := Event.select.inj hsel
          exact hqi (hq ▸ selectQI_mem s.df s.genSet h2)
        · cases hother
        · cases hother
      · refine ih (pruneSucc ctx s) df tr2 gl qi hrec ?_ d g htl
        intro hmem2
        exact hqi (List.mem_of_mem_erase hmem2)

theorem tLoop_prune_no_retry (ctx : LoopCtx) : ∀ (fuel : Nat) (s : LoopState)
    (df : DataFrame) (tr : List Event) (gl : String → Nat),
    tLoop ctx fuel s = some (df, tr, gl) → s.genSet.Nodup →
    ∀ (l1 : List Event) (qi : String) (l2 : List Event),
      tr = l1 ++ Event.prune qi :: l2 →
      ∀ d g, Event.select d g qi ∉ l2 := by
  intro fuel
  induction fuel with
  | zero => intro s df tr gl h; simp [tLoop] at h
  | succ n ih =>
    intro s df tr gl h hnd
    rcases tLoop_succ_inv ctx n s df tr gl h with
      ⟨_, _, rfl, _⟩ | ⟨_, _, _, rfl, _⟩ |
      ⟨newcol, tr2, _, h2, _, hrec, rfl⟩ | ⟨e, tr2, _, h2, _, hrec, rfl⟩
    · intro l1 qi l2 hsplit
      rcases l1 with _ | ⟨a, l1⟩ <;> simp at hsplit
    · intro l1 qi l2 hsplit
      rcases l1 with _ | ⟨a, l1⟩ <;> simp at hsplit
    · intro l1 qi l2 hsplit d g
      simp only [genTrace, List.cons_append, List.nil_append] at hsplit
      rcases l1 with _ | ⟨a1, _ | ⟨a2, _ | ⟨a3, l1⟩⟩⟩
      · simp only [List.nil_append, List.cons.injEq] at hsplit
        cases hsplit.1
      · simp only [List.cons_append, List.nil_append, List.cons.injEq] at hsplit
        cases hsplit.2.1
      · simp only [List.cons_append, List.nil_append, List.cons.injEq] at hsplit
        cases hsplit.2.2.1
      · simp only [List.cons_append, List.cons.injEq] at hsplit
        exact ih (genSucc ctx s newcol) df tr2 gl hrec hnd l1 qi l2
          hsplit.2.2.2 d g
    · intro l1 qi l2 hsplit d g
      simp only [pruneTrace, List.cons_append, List.nil_append] at hsplit
      rcases l1 with _ | ⟨a1, _ | ⟨a2, _ | ⟨a3, l1⟩⟩⟩
      · simp only [List.nil_append, List.cons.injEq] at hsplit
        cases hsplit.1
      · simp only [List.cons_append, List.nil_append, List.cons.injEq] at hsplit
        obtain ⟨_, hpr, hrest⟩ := hsplit
        have hq : selectQI s.df s.genSet = qi := by simpa using hpr
        intro hmem
        rw [← hrest] at hmem
        rcases List.mem_cons.mp hmem with hbad | htl2
        · cases hbad
        · refine tLoop_no_select ctx n (pruneSucc ctx s) df tr2 gl qi hrec ?_ d g htl2
          show qi ∉ s.genSet.erase (selectQI s.df s.genSet)
          rw [← hq]
          exact hnd.not_mem_erase
      · simp only [List.cons_append, List.nil_append, List.cons.injEq] at hsplit
        cases hsplit.2.2.1
      · simp only [List.cons_append, List.cons.injEq] at hsplit
        exact ih (pruneSucc ctx s) df tr2 gl hrec (hnd.erase _) l1 qi l2
          hsplit.2.2.2 d g

theorem tLoop_metric_count (ctx : LoopCtx) : ∀ (fuel : Nat) (s : LoopState)
    (df : DataFrame) (tr : List Event) (gl : String → Nat),
    tLoop ctx fuel s = some (df, tr, gl) →
    tr.countP Event.isMetric = tr.countP Event.isSelect := by
  intro fuel
  induction fuel with
  | zero => intro s df tr gl h; simp [tLoop] at h
  | succ n ih =>
    intro s df tr gl h
    rcases tLoop_succ_inv ctx n s df tr gl h with
      ⟨_, _, rfl, _⟩ | ⟨_, _, _, rfl, _⟩ |
      ⟨newcol, tr2, _, _, _, hrec, rfl⟩ | ⟨e, tr2, _, _, _, hrec, rfl⟩
    · rfl
    · rfl
    · rw [List.countP_append, List.countP_append,
        ih (genSucc ctx s newcol) df tr2 gl hrec]
      simp [genTrace, List.countP_cons, Event.isMetric, Event.isSelect]
    · rw [List.countP_append, List.countP_append,
        ih (pruneSucc ctx s) df tr2 gl hrec]
      simp [pruneTrace, List.countP_cons, Event.isMetric, Event.isSelect]

/-! ### Inversion of the full routine -/

theorem t_closenessRun_inv (kanon : KanonFn) (oracle : OracleFn)
    (data : DataFrame) (ident quasi_ident : List String) (sens_att : String)
    (k : Nat) (t supp_level : ℚ) (hierarchies : String → Hierarchy)
    (df : DataFrame) (tr : List Event) (levels : List (String × Nat))
    (h : t_closenessRun kanon oracle data ident quasi_ident sens_att k t
      supp_level hierarchies = Except.ok (df, tr, levels)) :
    ¬ (t < 0 ∨ t > 1) ∧
    ((oracle (kanon data ident quasi_ident k supp_level hierarchies).1
        quasi_ident sens_att ≤ t ∧
      df = (kanon data ident quasi_ident k supp_level hierarchies).1 ∧
      tr = [] ∧
      levels = quasi_ident.map (fun q =>
        (q, (kanon data ident quasi_ident k supp_level hierarchies).2.2 q))) ∨
     (¬ oracle (kanon data ident quasi_ident k supp_level hierarchies).1
        quasi_ident sens_att ≤ t ∧
      ∃ gl fuel,
        tLoop ⟨oracle, quasi_ident, sens_att, hierarchies, t⟩ fuel
          ⟨(kanon data ident quasi_ident k supp_level hierarchies).1, quasi_ident,
           (kanon data ident quasi_ident k supp_level hierarchies).2.2,
           oracle (kanon data ident quasi_ident k supp_level hierarchies).1
             quasi_ident sens_att⟩ = some (df, tr, gl) ∧
        levels = quasi_ident.map (fun q => (q, gl q)))) := by
  by_cases hval : t < 0 ∨ t > 1
  · rw [t_closenessRun, if_pos hval] at h
    cases h
  · refine ⟨hval, ?_⟩
    rw [t_closenessRun, if_neg hval] at h
    dsimp only at h
    by_cases hle : oracle (kanon data ident quasi_ident k supp_level hierarchies).1
        quasi_ident sens_att ≤ t
    · rw [if_pos hle] at h
      have hinj := Except.ok.inj h
      exact Or.inl ⟨hle, (congrArg (fun x => x.1) hinj).symm,
        (congrArg (fun x => x.2.1) hinj).symm, (congrArg (fun x => x.2.2) hinj).symm⟩
    · rw [if_neg hle] at h
      refine Or.inr ⟨hle, ?_⟩
      have hsome := tLoop_isSome_of_measure_lt
        ⟨oracle, quasi_ident, sens_att, hierarchies, t⟩
        (loopMeasure ⟨oracle, quasi_ident, sens_att, hierarchies, t⟩
          ⟨(kanon data ident quasi_ident k supp_level hierarchies).1, quasi_ident,
           (kanon data ident quasi_ident k supp_level hierarchies).2.2,
           oracle (kanon data ident quasi_ident k supp_level hierarchies).1
             quasi_ident sens_att⟩ + 1)
        ⟨(kanon data ident quasi_ident k supp_level hierarchies).1, quasi_ident,
         (kanon data ident quasi_ident k supp_level hierarchies).2.2,
         oracle (kanon data ident quasi_ident k supp_level hierarchies).1
           quasi_ident sens_att⟩ (by omega)
      rcases ho : tLoop ⟨oracle, quasi_ident, sens_att, hierarchies, t⟩
          (loopMeasure ⟨oracle, quasi_ident, sens_att, hierarchies, t⟩
            ⟨(kanon data ident quasi_ident k supp_level hierarchies).1, quasi_ident,
             (kanon data ident quasi_ident k supp_level hierarchies).2.2,
             oracle (kanon data ident quasi_ident k supp_level hierarchies).1
               quasi_ident sens_att⟩ + 1)
          ⟨(kanon data ident quasi_ident k supp_level hierarchies).1, quasi_ident,
           (kanon data ident quasi_ident k supp_level hierarchies).2.2,
           oracle (kanon data ident quasi_ident k supp_level hierarchies).1
             quasi_ident sens_att⟩ with _ | ⟨df2, tr2, gl2⟩
      · rw [ho] at hsome
        simp at hsome
      · rw [ho] at h
        have hinj := Except.ok.inj h
        have hdf : df2 = df := congrArg (fun x => x.1) hinj
        have htr : tr2 = tr := congrArg (fun x => x.2.1) hinj
        have hlv : quasi_ident.map (fun q => (q, gl2 q)) = levels :=
          congrArg (fun x => x.2.2) hinj
        rw [hdf, htr] at ho
        exact ⟨gl2, _, ho, hlv.symm⟩

/-! ### Further concrete fixtures for the witnesses -/

/-- The dataframe of `dfH` after fully starring column `a`. -/
def dfStar : DataFrame := ⟨[("a", ["*", "*"]), ("s", ["u", "v"])]⟩

/-- Trace of the run that generalizes `a` once and then meets the target. -/
def trGen : List Event :=
  [.select dfH ["a"] "a", .gen "a" 0, .metric ["a"] "s" 0]

/-- Trace of the run whose generalization attempt hits exhaustion. -/
def trPrune : List Event :=
  [.select dfH ["a"] "a", .prune "a", .metric ["a"] "s" 1]

/-- A loop context whose oracle is constantly 1 and target 0. -/
def ctxW : LoopCtx := ⟨oracleConst 1, ["a"], "s", hier0, 0⟩

/-- A loop state with an empty candidate set and unmet metric. -/
def sW : LoopState := ⟨dfH, [], fun _ => 0, 1⟩

/-- A loop state with one candidate and unmet metric. -/
def sW2 : LoopState := ⟨dfH, ["a"], fun _ => 0, 1⟩

/-! ### The claims -/

/-- C1: whenever `t_closeness` returns a non-empty dataframe, the metric
computed by the oracle over that dataframe, the full quasi-identifier list
and the sensitive attribute is at most the requested target `t`.  The
enforcer and the oracle are arbitrary; the oracle is pure, as the spec
assumes. -/
theorem C1_result_le_target (kanon : KanonFn) (oracle : OracleFn)
    (data : DataFrame) (ident quasi_ident : List String) (sens_att : String)
    (k : Nat) (t supp_level : ℚ) (hierarchies : String → Hierarchy)
    (df : DataFrame)
    (hok : t_closeness kanon oracle data ident quasi_ident sens_att k t
      supp_level hierarchies = Except.ok df)
    (hne : df.cols ≠ []) :
    oracle df quasi_ident sens_att ≤ t := by
  unfold t_closeness at hok
  rcases hrun : t_closenessRun kanon oracle data ident quasi_ident sens_att k t
      supp_level hierarchies with msg | ⟨df2, tr, levels⟩
  · rw [hrun] at hok
    cases hok
  · rw [hrun] at hok
    simp only [Except.map] at hok
    have hdf : df2 = df := Except.ok.inj hok
    subst hdf
    rcases t_closenessRun_inv kanon oracle data ident quasi_ident sens_att k t
        supp_level hierarchies df2 tr levels hrun with ⟨hval, hearly | hloop⟩
    · rcases hearly with ⟨hle, rfl, _, _⟩
      exact hle
    · rcases hloop with ⟨hgt, gl, fuel, ho, _⟩
      have hres := tLoop_ok_metric ⟨oracle, quasi_ident, sens_att, hierarchies, t⟩
        fuel
        ⟨(kanon data ident quasi_ident k supp_level hierarchies).1, quasi_ident,
         (kanon data ident quasi_ident k supp_level hierarchies).2.2,
         oracle (kanon data ident quasi_ident k supp_level hierarchies).1
           quasi_ident sens_att⟩ df2 tr gl rfl ho
      rcases hres with hemp | hle2
      · exact absurd (show df2.cols = [] by rw [hemp]; rfl) hne
      · exact hle2

/-- C1 witness: a concrete successful run whose result satisfies the bound. -/
theorem C1_witness : oracleGen dfStar ["a"] "s" ≤ (0 : ℚ) :=
  C1_result_le_target kanonId oracleGen dfH [] ["a"] "s" 2 0 0 hier1 dfStar
    (by decide) (by decide)

/-- C2: when `t < 0` or `t > 1`, `t_closeness` fails at once with the
ValueError message of the source, for EVERY enforcer and oracle — so the
enforcer is never consulted, no generalization happens and nothing depends
on the data. -/
theorem C2_invalid_t_fails_fast (kanon : KanonFn) (oracle : OracleFn)
    (data : DataFrame) (ident quasi_ident : List String) (sens_att : String)
    (k : Nat) (t supp_level : ℚ) (hierarchies : String → Hierarchy)
    (hval : t < 0 ∨ t > 1) :
    t_closenessRun kanon oracle data ident quasi_ident sens_att k t
      supp_level hierarchies =
      Except.error ("Invalid value of t for t-closeness, t=" ++ toString t) := by
  rw [t_closenessRun, if_pos hval]

/-- C2 witness: a concrete out-of-range target. -/
theorem C2_witness :
    t_closenessRun kanonId (oracleConst 0) dfH [] ["a"] "s" 2 2 0 hier0 =
      Except.error ("Invalid value of t for t-closeness, t=" ++ toString (2 : ℚ)) :=
  C2_invalid_t_fails_fast kanonId (oracleConst 0) dfH [] ["a"] "s" 2 2 0 hier0
    (Or.inr (by decide))

/-- C3: when the candidate set is empty while the metric still exceeds `t`,
the loop returns the explicit empty dataframe; and for every in-range `t`
the routine returns a value (`Except.ok`), never an exception. -/
theorem C3_infeasibility_empty_result :
    (∀ (ctx : LoopCtx) (s : LoopState) (fuel : Nat), fuel ≠ 0 →
      s.genSet = [] → ctx.t < s.tReal →
      tLoop ctx fuel s = some (DataFrame.empty, [], s.genLevel)) ∧
    (∀ (kanon : KanonFn) (oracle : OracleFn) (data : DataFrame)
      (ident quasi_ident : List String) (sens_att : String) (k : Nat)
      (t supp_level : ℚ) (hierarchies : String → Hierarchy),
      0 ≤ t → t ≤ 1 →
      ∃ out, t_closenessRun kanon oracle data ident quasi_ident sens_att k t
        supp_level hierarchies = Except.ok out) := by
  constructor
  · intro ctx s fuel hfuel hempty hgt
    match fuel, hfuel with
    | n + 1, _ =>
      simp [tLoop, tStep_infeasible ctx s (not_le.mpr hgt) hempty]
  · intro kanon oracle data ident quasi_ident sens_att k t supp_level hierarchies h0 h1
    rw [t_closenessRun, if_neg (not_or.mpr ⟨not_lt.mpr h0, not_lt.mpr h1⟩)]
    dsimp only
    split
    · exact ⟨_, rfl⟩
    · split
      · exact ⟨_, rfl⟩
      · exact ⟨_, rfl⟩

/-- C3 witness: the empty-candidate state yields the empty dataframe, and a
concrete in-range run returns ok. -/
theorem C3_witness :
    tLoop ctxW 1 sW = some (DataFrame.empty, [], sW.genLevel) ∧
    (t_closenessRun kanonId (oracleConst 1) dfH [] ["a"] "s" 2 0 0
      hier0).toOption.isSome = true := by
  constructor
  · exact C3_infeasibility_empty_result.1 ctxW sW 1 (by decide) rfl (by decide)
  · obtain ⟨out, hout⟩ := C3_infeasibility_empty_result.2 kanonId (oracleConst 1)
      dfH [] ["a"] "s" 2 0 0 hier0 (by decide) (by decide)
    rw [hout]
    rfl

/-- C4 counterexample: the claim says that after a hierarchy-exhaustion
error the loop continues WITHOUT recomputing the metric for that iteration.
In the source the recomputation sits outside the `try`/`except`, so the
iteration that prunes the attribute still calls the oracle: in this
concrete run the single iteration prunes `a` and nonetheless records a
metric event immediately afterwards. -/
theorem C4_counterexample :
    t_closenessTrace kanonId (oracleConst 1) dfH [] ["a"] "s" 2 0 0 hier0 =
      Except.ok [Event.select dfH ["a"] "a", Event.prune "a",
        Event.metric ["a"] "s" 1] := by
  decide

/-- C4 (amended): on hierarchy exhaustion the selected attribute is removed
from the candidate set and (for distinct quasi-identifier names) never
selected again; the loop then continues, recomputing the metric in that
iteration as in every iteration — every iteration performs exactly one
oracle call, so the counts of metric and select events agree. -/
theorem C4_amended_prune_never_retried (kanon : KanonFn) (oracle : OracleFn)
    (data : DataFrame) (ident quasi_ident : List String) (sens_att : String)
    (k : Nat) (t supp_level : ℚ) (hierarchies : String → Hierarchy)
    (df : DataFrame) (tr : List Event) (levels : List (String × Nat))
    (hok : t_closenessRun kanon oracle data ident quasi_ident sens_att k t
      supp_level hierarchies = Except.ok (df, tr, levels))
    (hnd : quasi_ident.Nodup) :
    (∀ (l1 : List Event) (qi : String) (l2 : List Event),
      tr = l1 ++ Event.prune qi :: l2 → ∀ d g, Event.select d g qi ∉ l2) ∧
    tr.countP Event.isMetric = tr.countP Event.isSelect := by
  rcases t_closenessRun_inv kanon oracle data ident quasi_ident sens_att k t
      supp_level hierarchies df tr levels hok with ⟨_, hearly | hloop⟩
  · rcases hearly with ⟨_, _, rfl, _⟩
    constructor
    · intro l1 qi l2 hsplit
      rcases l1 with _ | ⟨a, l1⟩ <;> simp at hsplit
    · rfl
  · rcases hloop with ⟨_, gl, fuel, ho, _⟩
    exact ⟨tLoop_prune_no_retry _ fuel _ df tr gl ho hnd,
      tLoop_metric_count _ fuel _ df tr gl ho⟩

/-- C4 witness: in the concrete pruning run, the pruned attribute is not
selected later in the trace, and the event counts agree. -/
theorem C4_witness :
    (Event.select dfH ["a"] "a" ∉ [Event.metric ["a"] "s" 1]) ∧
    trPrune.countP Event.isMetric = trPrune.countP Event.isSelect := by
  have h := C4_amended_prune_never_retried kanonId (oracleConst 1) dfH []
    ["a"] "s" 2 0 0 hier0 DataFrame.empty trPrune [("a", 0)]
    (by decide) (by decide)
  exact ⟨h.1 [Event.select dfH ["a"] "a"] "a" [Event.metric ["a"] "s" 1]
    (by decide) dfH ["a"], h.2⟩

/-- C5: every attribute selected by the refinement loop belongs to the
then-current candidate set and has the greatest number of distinct values
in the then-current dataframe among all remaining candidates. -/
theorem C5_select_most_distinct (kanon : KanonFn) (oracle : OracleFn)
    (data : DataFrame) (ident quasi_ident : List String) (sens_att : String)
    (k : Nat) (t supp_level : ℚ) (hierarchies : String → Hierarchy)
    (df : DataFrame) (tr : List Event) (levels : List (String × Nat))
    (hok : t_closenessRun kanon oracle data ident quasi_ident sens_att k t
      supp_level hierarchies = Except.ok (df, tr, levels))
    (d : DataFrame) (g : List String) (qi : String)
    (hmem : Event.select d g qi ∈ tr) :
    qi ∈ g ∧ ∀ q ∈ g, numDistinct d q ≤ numDistinct d qi := by
  rcases t_closenessRun_inv kanon oracle data ident quasi_ident sens_att k t
      supp_level hierarchies df tr levels hok with ⟨_, hearly | hloop⟩
  · rcases hearly with ⟨_, _, rfl, _⟩
    exact absurd hmem (by simp)
  · rcases hloop with ⟨_, gl, fuel, ho, _⟩
    obtain ⟨hqi, hgne⟩ := tLoop_select_spec _ fuel _ df tr gl ho d g qi hmem
    subst hqi
    exact ⟨selectQI_mem d g hgne, fun q hq => selectQI_max d g hgne q hq⟩

/-- C5 witness: in the concrete generalizing run, the selected attribute is
in the candidate set and maximal. -/
theorem C5_witness :
    ("a" ∈ (["a"] : List String)) ∧ numDistinct dfH "a" ≤ numDistinct dfH "a" := by
  have h := C5_select_most_distinct kanonId oracleGen dfH [] ["a"] "s" 2 0 0
    hier1 dfStar trGen [("a", 1)] (by decide) dfH ["a"] "a" (by decide)
  exact ⟨h.1, h.2 "a" h.1⟩

/-- C6: generalization levels never decrease: the final recorded level of
every quasi-identifier is at least its level on entry to the loop, and each
individual iteration either leaves every level unchanged or increases
exactly the selected attribute's level by exactly one. -/
theorem C6_levels_monotone (kanon : KanonFn) (oracle : OracleFn)
    (data : DataFrame) (ident quasi_ident : List String) (sens_att : String)
    (k : Nat) (t supp_level : ℚ) (hierarchies : String → Hierarchy)
    (df : DataFrame) (tr : List Event) (levels : List (String × Nat))
    (hok : t_closenessRun kanon oracle data ident quasi_ident sens_att k t
      supp_level hierarchies = Except.ok (df, tr, levels)) :
    (∀ q n, (q, n) ∈ levels →
      (kanon data ident quasi_ident k supp_level hierarchies).2.2 q ≤ n) ∧
    (∀ (ctx : LoopCtx) (s s2 : LoopState) (tr2 : List Event),
      tStep ctx s = .next s2 tr2 →
      ∃ qi, (∀ q, q ≠ qi → s2.genLevel q = s.genLevel q) ∧
        (s2.genLevel qi = s.genLevel qi ∨ s2.genLevel qi = s.genLevel qi + 1)) := by
  constructor
  · intro q n hmem
    rcases t_closenessRun_inv kanon oracle data ident quasi_ident sens_att k t
        supp_level hierarchies df tr levels hok with ⟨_, hearly | hloop⟩
    · rcases hearly with ⟨_, _, _, rfl⟩
      rcases List.mem_map.mp hmem with ⟨a, _, heq⟩
      have hq : a = q := congrArg (fun x => x.1) heq
      have hn : (kanon data ident quasi_ident k supp_level hierarchies).2.2 a = n :=
        congrArg (fun x => x.2) heq
      rw [← hq, hn]
    · rcases hloop with ⟨_, gl, fuel, ho, rfl⟩
      rcases List.mem_map.mp hmem with ⟨a, _, heq⟩
      have hq : a = q := congrArg (fun x => x.1) heq
      have hn : gl a = n := congrArg (fun x => x.2) heq
      have := tLoop_level_mono _ fuel _ df tr gl ho a
      rw [← hq, ← hn]
      exact this
  · exact fun ctx s s2 tr2 h => tStep_level_shape ctx s s2 tr2 h

/-- C6 witness: in the concrete generalizing run, the initial level 0 of
`a` is at most its recorded final level 1. -/
theorem C6_witness : (kanonId dfH [] ["a"] 2 0 hier1).2.2 "a" ≤ 1 :=
  (C6_levels_monotone kanonId oracleGen dfH [] ["a"] "s" 2 0 0 hier1 dfStar
    trGen [("a", 1)] (by decide)).1 "a" 1 (by decide)

/-- C7: when the metric on the k-anonymized intermediate dataset already
satisfies the target (with `t` in range), `t_closeness` returns that
dataset unchanged, with an empty refinement trace (zero generalization
steps) and the enforcer's levels untouched. -/
theorem C7_early_return (kanon : KanonFn) (oracle : OracleFn)
    (data : DataFrame) (ident quasi_ident : List String) (sens_att : String)
    (k : Nat) (t supp_level : ℚ) (hierarchies : String → Hierarchy)
    (h0 : 0 ≤ t) (h1 : t ≤ 1)
    (hsat : oracle (kanon data ident quasi_ident k supp_level hierarchies).1
      quasi_ident sens_att ≤ t) :
    t_closenessRun kanon oracle data ident quasi_ident sens_att k t
      supp_level hierarchies =
      Except.ok ((kanon data ident quasi_ident k supp_level hierarchies).1, [],
        quasi_ident.map (fun q =>
          (q, (kanon data ident quasi_ident k supp_level hierarchies).2.2 q))) := by
  rw [t_closenessRun, if_neg (not_or.mpr ⟨not_lt.mpr h0, not_lt.mpr h1⟩)]
  dsimp only
  rw [if_pos hsat]

/-- C7 witness: an oracle value of 0 with `t = 0` returns at once. -/
theorem C7_witness :
    t_closenessRun kanonId (oracleConst 0) dfH [] ["a"] "s" 2 0 0 hier0 =
      Except.ok (dfH, [], [("a", 0)]) :=
  C7_early_return kanonId (oracleConst 0) dfH [] ["a"] "s" 2 0 0 hier0
    (by decide) (by decide) (by decide)

/-- C8: the refinement loop terminates: with fuel exceeding the measure
(remaining candidate count plus the hierarchy room of every candidate) the
fuelled loop always yields a result — each iteration either increments one
attribute's level, bounded by its hierarchy's maximum (beyond which
`apply_hierarchy` fails), or strictly shrinks the candidate set. -/
theorem C8_loop_terminates (ctx : LoopCtx) (fuel : Nat) (s : LoopState)
    (h : loopMeasure ctx s < fuel) : (tLoop ctx fuel s).isSome = true :=
  tLoop_isSome_of_measure_lt ctx fuel s h

/-- C8 witness: a concrete state and sufficient fuel. -/
theorem C8_witness : (tLoop ctxW 3 sW2).isSome = true :=
  C8_loop_terminates ctxW 3 sW2 (by decide)

/-- C9: the refinement loop never removes rows and never touches columns
other than quasi-identifier columns: every non-empty result agrees with the
k-anonymized intermediate dataset on all non-quasi-identifier columns
(hence on the sensitive attribute) and has the same per-column lengths and
row count. -/
theorem C9_frame_preserved (kanon : KanonFn) (oracle : OracleFn)
    (data : DataFrame) (ident quasi_ident : List String) (sens_att : String)
    (k : Nat) (t supp_level : ℚ) (hierarchies : String → Hierarchy)
    (df : DataFrame) (tr : List Event) (levels : List (String × Nat))
    (hok : t_closenessRun kanon oracle data ident quasi_ident sens_att k t
      supp_level hierarchies = Except.ok (df, tr, levels))
    (hne : df.cols ≠ []) :
    (∀ c, c ∉ quasi_ident →
      df.get c = (kanon data ident quasi_ident k supp_level hierarchies).1.get c) ∧
    (∀ c, (df.get c).length =
      ((kanon data ident quasi_ident k supp_level hierarchies).1.get c).length) ∧
    df.nRows = (kanon data ident quasi_ident k supp_level hierarchies).1.nRows := by
  rcases t_closenessRun_inv kanon oracle data ident quasi_ident sens_att k t
      supp_level hierarchies df tr levels hok with ⟨_, hearly | hloop⟩
  · rcases hearly with ⟨_, rfl, _, _⟩
    exact ⟨fun c _ => rfl, fun c => rfl, rfl⟩
  · rcases hloop with ⟨_, gl, fuel, ho, _⟩
    rcases tLoop_frame _ fuel _ df tr gl ho with hemp | hprops
    · exact absurd (show df.cols = [] by rw [hemp]; rfl) hne
    · exact hprops

/-- C9 witness: the sensitive column and the row count of the concrete
generalizing run's result match the intermediate dataset. -/
theorem C9_witness :
    dfStar.get "s" = (kanonId dfH [] ["a"] 2 0 hier1).1.get "s" ∧
    dfStar.nRows = (kanonId dfH [] ["a"] 2 0 hier1).1.nRows := by
  have h := C9_frame_preserved kanonId oracleGen dfH [] ["a"] "s" 2 0 0 hier1
    dfStar trGen [("a", 1)] (by decide) (by decide)
  exact ⟨h.1 "s" (by decide), h.2.2⟩

/-- C10: ties among remaining candidates are broken deterministically
toward the earliest position in the candidate list's current order: the
selected attribute sits at an index all of whose predecessors have strictly
fewer distinct values (`np.argmax` returns the first maximal index); and
the caller's `quasi_ident` list is never mutated — every oracle call in the
trace carries the full original quasi-identifier list and sensitive
attribute, which would fail if pruning had operated on the shared list
rather than on a copy. -/
theorem C10_first_max_tiebreak (kanon : KanonFn) (oracle : OracleFn)
    (data : DataFrame) (ident quasi_ident : List String) (sens_att : String)
    (k : Nat) (t supp_level : ℚ) (hierarchies : String → Hierarchy)
    (df : DataFrame) (tr : List Event) (levels : List (String × Nat))
    (hok : t_closenessRun kanon oracle data ident quasi_ident sens_att k t
      supp_level hierarchies = Except.ok (df, tr, levels)) :
    (∀ (d : DataFrame) (g : List String) (qi : String),
      Event.select d g qi ∈ tr →
      ∃ i : Nat, i < g.length ∧ g.getD i "" = qi ∧
        ∀ j : Nat, j < i → numDistinct d (g.getD j "") < numDistinct d qi) ∧
    (∀ (ql : List String) (sv : String) (v : ℚ),
      Event.metric ql sv v ∈ tr → ql = quasi_ident ∧ sv = sens_att) := by
  rcases t_closenessRun_inv kanon oracle data ident quasi_ident sens_att k t
      supp_level hierarchies df tr levels hok with ⟨_, hearly | hloop⟩
  · rcases hearly with ⟨_, _, rfl, _⟩
    constructor
    · intro d g qi hmem
      exact absurd hmem (by simp)
    · intro ql sv v hmem
      exact absurd hmem (by simp)
  · rcases hloop with ⟨_, gl, fuel, ho, _⟩
    constructor
    · intro d g qi hmem
      obtain ⟨hqi, hgne⟩ := tLoop_select_spec _ fuel _ df tr gl ho d g qi hmem
      subst hqi
      exact selectQI_first d g hgne
    · intro ql sv v hmem
      exact tLoop_metric_args _ fuel _ df tr gl ho ql sv v hmem

/-- C10 witness: in the concrete generalizing run, the oracle was called
with the caller's full quasi-identifier list and sensitive attribute. -/
theorem C10_witness :
    ((["a"] : List String) = ["a"]) ∧ ("s" : String) = "s" :=
  (C10_first_max_tiebreak kanonId oracleGen dfH [] ["a"] "s" 2 0 0 hier1
    dfStar trGen [("a", 1)] (by decide)).2 ["a"] "s" 0 (by decide)

end Anjana
